import Mathlib

/-!
Verification development for the record-format engine of `tde` (file
`src/library/py/tde/recfmt.py`) and the iHex merge driver
(`src/host/bin/mergehex.py`).

Text is modelled as `List Char` (one list per input line, line terminators
already split off, as Python's file iteration plus `str.strip` does).
Byte strings are `List Nat` with every element `< 256` where the source
guarantees it.  Python `BytesIO` buffers are modelled by an explicit
(position, contents) pair with zero-fill on seek past the end, matching
CPython semantics.  Python exceptions become `Except` errors: the concrete
exception class is abstracted into the `RErr` constructor of the matching
`raise` site (uncaught `ValueError`s from `int()`/`unhexlify` are errors
with their own constructors).  Progress printing (`verbose`) writes to the
terminal only and is omitted.
-/

deriving instance DecidableEq for Except

/-- Python `str.strip` default whitespace set. -/
def isSpaceC (c : Char) : Bool :=
  c = ' ' || c = '\t' || c = '\n' || c = '\r' || c.toNat = 11 || c.toNat = 12

/-- Python `str.strip`: drop whitespace from both ends of a line. -/
def stripL (l : List Char) : List Char :=
  ((l.dropWhile isSpaceC).reverse.dropWhile isSpaceC).reverse

/-- Value of one hexadecimal digit character, as `int(-, 16)` accepts it. -/
def hexDigit? (c : Char) : Option Nat :=
  if 48 ≤ c.toNat ∧ c.toNat ≤ 57 then some (c.toNat - 48)
  else if 65 ≤ c.toNat ∧ c.toNat ≤ 70 then some (c.toNat - 55)
  else if 97 ≤ c.toNat ∧ c.toNat ≤ 102 then some (c.toNat - 87)
  else none

def hexValGo : List Char → Nat → Option Nat
  | [], acc => some acc
  | c :: r, acc =>
    match hexDigit? c with
    | some d => hexValGo r (16 * acc + d)
    | none => none

/-- Python `int(s, 16)` on a plain digit string; `none` models the
`ValueError` raised on an empty or non-hexadecimal string. -/
def hexVal? (s : List Char) : Option Nat :=
  if s.isEmpty then none else hexValGo s 0

/-- Value of one decimal digit character. -/
def decDigit? (c : Char) : Option Nat :=
  if 48 ≤ c.toNat ∧ c.toNat ≤ 57 then some (c.toNat - 48) else none

def decValGo : List Char → Nat → Option Nat
  | [], acc => some acc
  | c :: r, acc =>
    match decDigit? c with
    | some d => decValGo r (10 * acc + d)
    | none => none

/-- Python `int(s)` (base 10) on a plain digit string. -/
def decVal? (s : List Char) : Option Nat :=
  if s.isEmpty then none else decValGo s 0

/-- Python `binascii.unhexlify`: pairs of hex digits to bytes; `none`
models the `binascii.Error` on odd length or a non-hex character. -/
def unhexlifyL : List Char → Option (List Nat)
  | [] => some []
  | [_] => none
  | a :: b :: r =>
    match hexDigit? a, hexDigit? b with
    | some x, some y => (unhexlifyL r).map (fun t => (16 * x + y) :: t)
    | _, _ => none

/-- Python slice `l[a:b]` with non-negative bounds (clamping included). -/
def slc (l : List Char) (a b : Nat) : List Char := (l.drop a).take (b - a)

/-- Python slice `l[a:-k]` (clamping included). -/
def slcNeg (l : List Char) (a k : Nat) : List Char :=
  (l.drop a).take (l.length - k - a)

/-- Python slice `l[-k:]` (whole list when the line is shorter than `k`,
as in Python). -/
def slcLast (l : List Char) (k : Nat) : List Char := l.drop (l.length - k)

/-- Errors of the record engine.  Each constructor corresponds to one
`raise` site (or uncaught builtin exception) in `recfmt.py`. -/
inductive RErr where
  /-- "Invalid SREC header" / "Invalid IHEX header". -/
  | header
  /-- "Unsupported SREC record" / "Unsupported IHEX record: %d". -/
  | unsupported (record : Nat)
  /-- Uncaught `binascii.Error` from `unhexlify`. -/
  | badHex
  /-- Uncaught `ValueError` from `int(...)`. -/
  | badDigit
  /-- "Expected %d bytes, got %d". -/
  | sizeMismatch (expected got : Nat)
  /-- "Invalid checksum: 0x%02x / 0x%02x" (read, computed). -/
  | checksum (read computed : Nat)
  /-- "Address out of range [0x%08x..0x%08x]: 0x%08x". -/
  | addrRange (mn mx : Int) (address : Nat)
  /-- "Invalid address in file: 0x%08x" (address below `offset`). -/
  | badAddr (address : Nat)
  /-- Uncaught `ValueError` from `BytesIO.seek` with a negative position. -/
  | negSeek
  /-- "Invalid line @ %d in HEX file" (fast parser size mismatch). -/
  | invalidLine
  /-- "Invalid segment address" (fast parser, record 02 with size ≠ 2). -/
  | invalidSegAddr
  /-- "Invalid linear address" (fast parser, record 04 with size ≠ 2). -/
  | invalidLinAddr
  /-- "Invalid start address" (fast parser, record 03 with size ≠ 4). -/
  | invalidStartAddr
  /-- Uncaught `NameError`: `IHexFastParser.parse` references `sys`
  (never imported in its scope) when an EOF record has a non-zero
  address. -/
  | nameErr
  /-- Uncaught `UnboundLocalError`: TI-txt data line before any `@addr`. -/
  | unboundAddr
deriving DecidableEq, Repr

/-- `RecordSegment`: contiguous byte accumulator over a `BytesIO` buffer.
`size` is the `_size` bookkeeping field (an `int` that the seek path can
desynchronise from the buffer length), `pos` the `BytesIO` position and
`buf` the buffer contents. -/
structure RecordSegment where
  baseaddr : Int
  size : Int
  pos : Nat
  buf : List Nat
deriving DecidableEq, Repr

/-- Fresh `RecordSegment(baseaddr)`. -/
def RecordSegment.mk0 (b : Int) : RecordSegment := ⟨b, 0, 0, []⟩

def RecordSegment.absaddr (s : RecordSegment) : Int := s.baseaddr + s.size

/-- `RecordSegment.data`: `BytesIO.getvalue()`. -/
def RecordSegment.data (s : RecordSegment) : List Nat := s.buf

/-- CPython `BytesIO.write` at position `p` over contents `c`: zero-fill
up to `p` if the buffer is shorter, then overwrite `d.length` bytes. -/
def bioWrite (c : List Nat) (p : Nat) (d : List Nat) : List Nat :=
  let c2 := c ++ List.replicate (p - c.length) 0
  c2.take p ++ d ++ c2.drop (p + d.length)

/-- `RecordSegment.write_with_size`.  When `offset` is given and is not
the contiguous position `baseaddr + size`, the source seeks the buffer to
`offset - baseaddr` (CPython raises `ValueError` on a negative seek,
modelled as `RErr.negSeek`) and adjusts the size bookkeeping. -/
def RecordSegment.write_with_size (s : RecordSegment) (d : List Nat)
    (sz : Int) (offset : Option Int) : Except RErr RecordSegment :=
  match offset with
  | some off0 =>
    if off0 - s.baseaddr ≠ s.size then
      let off := off0 - s.baseaddr
      if off < 0 then .error .negSeek
      else
        let p := off.toNat
        let sz' := sz + off - s.size
        .ok ⟨s.baseaddr, s.size + sz', p + d.length, bioWrite s.buf p d⟩
    else .ok ⟨s.baseaddr, s.size + sz, s.pos + d.length, bioWrite s.buf s.pos d⟩
  | none => .ok ⟨s.baseaddr, s.size + sz, s.pos + d.length, bioWrite s.buf s.pos d⟩

/-- `RecordSegment.write`. -/
def RecordSegment.write (s : RecordSegment) (d : List Nat)
    (offset : Option Int) : Except RErr RecordSegment :=
  s.write_with_size d d.length offset

/-- One yielded record `(type_, address, value)` of `_get_next_chunk`. -/
inductive Rec where
  | data (address : Nat) (value : List Nat)
  | execute (address : Nat)
  | info (address : Nat) (value : List Nat)
  | eof
deriving DecidableEq, Repr

/-- Record type tag used while classifying a line. -/
inductive RTy where
  | dataT | execT | infoT | eofT
deriving DecidableEq, Repr

def mkRec : RTy → Nat → List Nat → Rec
  | .dataT, a, v => .data a v
  | .execT, a, _ => .execute a
  | .infoT, a, v => .info a v
  | .eofT, _, _ => .eof

/-- Options of `RecordParser.__init__` (minus display-only `verbose`). -/
structure POpts where
  offset : Int
  mn : Int
  mx : Int
  gap : Int
  vfy : Bool
deriving DecidableEq, Repr

/-- Default construction options: `offset=0, min_addr=0x0,
max_addr=0xffffffff, segment_gap=16, verify=True`. -/
def optsDefault : POpts := ⟨0, 0, 0xffffffff, 16, true⟩

/-- Mutable state of a `RecordParser` during `parse`. -/
structure PState where
  seg : Option RecordSegment
  segments : List RecordSegment
  execAddr : Option Nat
  infoSeg : Option RecordSegment
deriving DecidableEq, Repr

def pstate0 : PState := ⟨none, [], none, none⟩

/-- `RecordParser._verify_address`. -/
def verifyAddress (o : POpts) (a : Nat) : Except RErr Unit :=
  if (a : Int) < o.mn ∨ (a : Int) > o.mx then .error (.addrRange o.mn o.mx a)
  else if (a : Int) < o.offset then .error (.badAddr a)
  else .ok ()

/-- `RecordParser._store_segment`: push the open segment (if any and its
size bookkeeping is non-zero — Python truthiness of an `int`). -/
def storeSegment (p : PState) : PState :=
  match p.seg with
  | some s =>
    if s.size ≠ 0 then ⟨none, p.segments ++ [s], p.execAddr, p.infoSeg⟩
    else ⟨none, p.segments, p.execAddr, p.infoSeg⟩
  | none => ⟨none, p.segments, p.execAddr, p.infoSeg⟩

/-- Body of the `for (record, address, value) in self:` loop of
`RecordParser.parse`, one record at a time. -/
def recStep (o : POpts) (p : PState) (r : Rec) : Except RErr PState :=
  match r with
  | .data a v =>
    let addr : Int := (a : Int) - o.offset
    let p1 :=
      match p.seg with
      | some s => if |addr - s.absaddr| ≥ o.gap then storeSegment p else p
      | none => p
    let s0 :=
      match p1.seg with
      | some s => s
      | none => RecordSegment.mk0 addr
    (s0.write v (some addr)).map fun s' => { p1 with seg := some s' }
  | .execute a => .ok { p with execAddr := some a }
  | .info a v =>
    let i0 :=
      match p.infoSeg with
      | some i => i
      | none => RecordSegment.mk0 (a : Int)
    (i0.write v (some (a : Int))).map fun i' => { p with infoSeg := some i' }
  | .eof => .ok p

/-- The record loop of `RecordParser.parse` over a record list. -/
def runRecs (o : POpts) (p : PState) (rs : List Rec) : Except RErr PState :=
  rs.foldlM (recStep o) p

/-- `RecordParser.parse` applied to an already-chunked record stream:
run the loop, then the final `_store_segment()`. -/
def parseFromRecords (o : POpts) (rs : List Rec) : Except RErr PState :=
  (runRecs o pstate0 rs).map storeSegment

/-! ### S-record parsing (`SRecParser._get_next_chunk`) -/

/-- Classification table of `SRecParser._get_next_chunk`: for a record
digit, the address-field end (in bytes), the decoded address and the
record type; the final `else` raises "Unsupported SREC record". -/
def srecClassify (record : Nat) (line : List Char) :
    Except RErr (Nat × Nat × RTy) :=
  if record = 1 then
    match hexVal? (slc line 4 8) with
    | some a => .ok (3, a, .dataT)
    | none => .error .badDigit
  else if record = 2 then
    match hexVal? (slc line 4 10) with
    | some a => .ok (4, a, .dataT)
    | none => .error .badDigit
  else if record = 3 then
    match hexVal? (slc line 4 12) with
    | some a => .ok (5, a, .dataT)
    | none => .error .badDigit
  else if record = 7 then
    match hexVal? (slc line 4 12) with
    | some a => .ok (5, a, .execT)
    | none => .error .badDigit
  else if record = 8 then
    match hexVal? (slc line 4 10) with
    | some a => .ok (4, a, .execT)
    | none => .error .badDigit
  else if record = 9 then
    match hexVal? (slc line 4 8) with
    | some a => .ok (3, a, .execT)
    | none => .error .badDigit
  else if record = 0 then
    match hexVal? (slc line 4 8) with
    | some a => .ok (3, a, .infoT)
    | none => .error .badDigit
  else .error (.unsupported record)

/-- One line of `SRecParser._get_next_chunk`: strip, skip short lines,
check the `S` marker, classify, decode payload, size check, optional
checksum check (one's complement over count+address+data), optional
address check (skipped for the `S0` info record), yield. -/
def srecChunkLine (o : POpts) (line0 : List Char) : Except RErr (Option Rec) :=
  let line := stripL line0
  if line.length < 5 then .ok none
  else if line.head? ≠ some 'S' then .error .header
  else
    match decVal? (slc line 1 2) with
    | none => .error .badDigit
    | some record =>
      match srecClassify record line with
      | .error e => .error e
      | .ok (addrend, address, ty) =>
        match unhexlifyL (slcNeg line 2 2) with
        | none => .error .badHex
        | some bytes_ =>
          match hexVal? (slc line 2 4) with
          | none => .error .badDigit
          | some size =>
            if size ≠ bytes_.length then .error (.sizeMismatch size bytes_.length)
            else
              let ck : Except RErr Unit :=
                if o.vfy then
                  let csum := (bytes_.sum &&& 0xff) ^^^ 0xff
                  match hexVal? (slcLast line 2) with
                  | none => .error .badDigit
                  | some rsum =>
                    if rsum ≠ csum then .error (.checksum rsum csum) else .ok ()
                else .ok ()
              match ck with
              | .error e => .error e
              | .ok _ =>
                let va : Except RErr Unit :=
                  if o.vfy then
                    if record ≠ 0 then verifyAddress o address else .ok ()
                  else .ok ()
                match va with
                | .error e => .error e
                | .ok _ => .ok (some (mkRec ty address (bytes_.drop addrend)))

/-- All records yielded by `SRecParser._get_next_chunk`, or the first
error (the generator is consumed lazily; an error aborts the whole parse
either way, so the all-or-nothing record list is observationally the
parse outcome). -/
def srecChunks (o : POpts) : List (List Char) → Except RErr (List Rec)
  | [] => .ok []
  | l :: ls =>
    match srecChunkLine o l with
    | .error e => .error e
    | .ok orec => (srecChunks o ls).map (fun r => orec.toList ++ r)

/-- `SRecParser.parse`. -/
def SRecParse (o : POpts) (lines : List (List Char)) : Except RErr PState :=
  ((srecChunks o lines).bind fun rs => runRecs o pstate0 rs).map storeSegment

/-! ### Intel HEX line parsing (`IHexParser._get_next_chunk`) -/

/-- Common tail of `IHexParser._get_next_chunk` shared by records 00, 01
and 03: decode payload, size check, optional checksum (two's complement
over everything but the checksum byte), extended-address adjustment for
DATA, and the `if self._verify and record:` address check — note that
this guard is false for DATA records (record type 0). -/
def ihexTail (o : POpts) (st : Nat) (size record : Nat) (ty : RTy)
    (address : Nat) (line : List Char) : Except RErr (Nat × Option Rec) :=
  match unhexlifyL (slcNeg line 9 2) with
  | none => .error .badHex
  | some bytes_ =>
    if size ≠ bytes_.length then .error (.sizeMismatch size bytes_.length)
    else
      let ck : Except RErr Unit :=
        if o.vfy then
          match unhexlifyL (slcNeg line 1 2) with
          | none => .error .badHex
          | some allb =>
            let csum := (256 - allb.sum % 256) % 256
            match hexVal? (slcLast line 2) with
            | none => .error .badDigit
            | some rsum =>
              if rsum ≠ csum then .error (.checksum rsum csum) else .ok ()
        else .ok ()
      match ck with
      | .error e => .error e
      | .ok _ =>
        let address := if ty = .dataT then address + st else address
        let va : Except RErr Unit :=
          if o.vfy then
            if record ≠ 0 then verifyAddress o address else .ok ()
          else .ok ()
        match va with
        | .error e => .error e
        | .ok _ => .ok (st, some (mkRec ty address bytes_))

/-- One line of `IHexParser._get_next_chunk`; `st` is the mutable
`_offset_addr` extended-address state. -/
def ihexChunkLine (o : POpts) (st : Nat) (line0 : List Char) :
    Except RErr (Nat × Option Rec) :=
  let line := stripL line0
  if line.length < 5 then .ok (st, none)
  else if line.head? ≠ some ':' then .error .header
  else
    match hexVal? (slc line 1 3) with
    | none => .error .badDigit
    | some size =>
      match hexVal? (slc line 3 7) with
      | none => .error .badDigit
      | some address =>
        match decVal? (slc line 7 9) with
        | none => .error .badDigit
        | some record =>
          if record = 0 then ihexTail o st size record .dataT address line
          else if record = 1 then ihexTail o st size record .eofT address line
          else if record = 2 then
            match hexVal? (slcNeg line 9 2) with
            | none => .error .badDigit
            | some v => .ok (Nat.lor (st - st % 2 ^ 20) (v <<< 4), none)
          else if record = 4 then
            match hexVal? (slcNeg line 9 2) with
            | none => .error .badDigit
            | some v => .ok (v <<< 16, none)
          else if record = 3 then
            match hexVal? (slc line 9 13), hexVal? (slcNeg line 13 2) with
            | some cs, some ip =>
              ihexTail o st size record .execT ((cs <<< 4) + ip) line
            | _, _ => .error .badDigit
          else .error (.unsupported record)

/-- All records yielded by `IHexParser._get_next_chunk`, threading the
`_offset_addr` state. -/
def ihexChunks (o : POpts) : Nat → List (List Char) → Except RErr (List Rec)
  | _, [] => .ok []
  | st, l :: ls =>
    match ihexChunkLine o st l with
    | .error e => .error e
    | .ok (st', orec) => (ihexChunks o st' ls).map (fun r => orec.toList ++ r)

/-- `IHexParser.parse` (line-oriented). -/
def IHexParse (o : POpts) (lines : List (List Char)) : Except RErr PState :=
  ((ihexChunks o 0 lines).bind fun rs => runRecs o pstate0 rs).map storeSegment

/-! ### TI-txt parsing (`TItxtParser._get_next_chunk`) -/

/-- `TItxtParser._get_next_chunk`: `@XXXX` address lines, raw hex data
lines (note: decoded with `unhexlify`, which rejects spaces), `q` for
EOF (the `break` discards the remaining lines).  The address check is
unconditional here (not gated on `verify`), and a data line before any
`@` line hits the unbound local `address` (`RErr.unboundAddr`). -/
def titxtChunks (o : POpts) : Option Nat → List (List Char) → Except RErr (List Rec)
  | _, [] => .ok []
  | addr, l0 :: ls =>
    let line := stripL l0
    if line.head? = some '@' then
      match hexVal? (line.drop 1) with
      | none => .error .badDigit
      | some a => titxtChunks o (some a) ls
    else if line = ['q'] then .ok [.eof]
    else
      match unhexlifyL line with
      | none => .error .badHex
      | some bytes_ =>
        match addr with
        | none => .error .unboundAddr
        | some a =>
          match verifyAddress o a with
          | .error e => .error e
          | .ok _ =>
            (titxtChunks o (some (a + bytes_.length)) ls).map
              (fun r => Rec.data a bytes_ :: r)

/-- `TItxtParser.parse`. -/
def TItxtParse (o : POpts) (lines : List (List Char)) : Except RErr PState :=
  ((titxtChunks o none lines).bind fun rs => runRecs o pstate0 rs).map storeSegment

/-! ### Fast Intel HEX parsing (`IHexFastParser.parse`) -/

/-- One match of `HEXCRE = (?aim)^:((?:[0-9A-F][0-9A-F]){5,})$` against a
single line, decoded to bytes (`unhexlify(mo.group(0)[1:])`); `none` when
the line does not match (`finditer` silently skips it). -/
def fastMatch? (line : List Char) : Option (List Nat) :=
  match line with
  | c :: rest =>
    if c = ':' then
      match unhexlifyL rest with
      | some bs => if 5 ≤ bs.length then some bs else none
      | none => none
    else none
  | [] => none

/-- Body of the `finditer` loop of `IHexFastParser.parse` for one line;
the state is `(offset_addr, parser state)`. -/
def fastLineStep (o : POpts) (sp : Nat × PState) (line : List Char) :
    Except RErr (Nat × PState) :=
  let st := sp.1
  let p := sp.2
  match fastMatch? line with
  | none => .ok (st, p)
  | some bv =>
    let size := bv.headD 0
    let rsum := bv.getLastD 0
    let dat := (bv.drop 4).dropLast
    if dat.length ≠ size then .error .invalidLine
    else
      let ck : Except RErr Unit :=
        if o.vfy then
          let csum := (256 - bv.dropLast.sum % 256) % 256
          if rsum ≠ csum then .error (.checksum rsum csum) else .ok ()
        else .ok ()
      match ck with
      | .error e => .error e
      | .ok _ =>
        let address := ((bv.getD 1 0) <<< 8) + bv.getD 2 0
        let record := bv.getD 3 0
        let va : Except RErr Unit :=
          if o.vfy then
            if record ≠ 0 then verifyAddress o address else .ok ()
          else .ok ()
        match va with
        | .error e => .error e
        | .ok _ =>
          if record = 0 then
            let address := address + st
            let addr : Int := (address : Int) - o.offset
            let p1 :=
              match p.seg with
              | some s =>
                let g0 := addr - s.absaddr
                let g1 := if g0 < 0 then -g0 else g0
                if g1 ≥ o.gap then storeSegment p else p
              | none => p
            let s0 :=
              match p1.seg with
              | some s => s
              | none => RecordSegment.mk0 addr
            (s0.write_with_size dat (size : Int) (some addr)).map
              (fun s' => (st, { p1 with seg := some s' }))
          else if record = 1 then
            if address ≠ 0 then .error .nameErr else .ok (st, p)
          else if record = 2 then
            if size ≠ 2 then .error .invalidSegAddr
            else .ok (Nat.lor (st - st % 2 ^ 20)
                      ((((dat.getD 0 0) <<< 8) + dat.getD 1 0) <<< 4), p)
          else if record = 4 then
            if size ≠ 2 then .error .invalidLinAddr
            else .ok ((((dat.getD 0 0) <<< 8) + dat.getD 1 0) <<< 16, p)
          else if record = 3 then
            if size ≠ 4 then .error .invalidStartAddr
            else
              let cs := ((dat.getD 0 0) <<< 8) + dat.getD 1 0
              let ip := ((dat.getD 2 0) <<< 8) + dat.getD 3 0
              .ok (st, { p with execAddr := some ((cs <<< 4) + ip) })
          else .ok (st, p)

/-- `IHexFastParser.parse`: fold the match loop over the buffered input's
lines, then the final `_store_segment()`. -/
def IHexFastParse (o : POpts) (lines : List (List Char)) : Except RErr PState :=
  (lines.foldlM (fastLineStep o) (0, pstate0)).map (fun sp => storeSegment sp.2)

/-! ### Builders (`SRecBuilder`, `TItxtBuilder`)

`TItxtBuilder` is valid Python-3 code and is modelled at value level.
`SRecBuilder` is unported Python-2 code running under Python 3 (the
repository is Python-3-only: `python3` shebangs, `print(..., file=...)`):
`checksum` iterates `unhexlify(...)` — a `bytes` whose elements are
`int`s — and calls `ord` on them (`TypeError`), and
`_create_info`/`_create_data` concatenate `str` with the `bytes` that
Python 3's `hexlify` returns (`TypeError`).  The model keeps those
error paths: every `SRecBuilder` operation returns `Except PyErr`. -/

/-- Uncaught builtin Python exceptions of the builders. -/
inductive PyErr where
  /-- `TypeError` (`str + bytes` concatenation, or `ord` of an `int`). -/
  | typeErr
  /-- `binascii.Error` (a `ValueError`) from `unhexlify`. -/
  | valueErr
deriving DecidableEq, Repr

/-- Lowercase hex digit character, as `%x` formatting produces. -/
def hexCharL (n : Nat) : Char :=
  if n < 10 then Char.ofNat (48 + n) else Char.ofNat (87 + n)

def hexDigsGo : Nat → Nat → List Char → List Char
  | 0, _, acc => acc
  | fuel + 1, n, acc =>
    if n = 0 then acc else hexDigsGo fuel (n / 16) (hexCharL (n % 16) :: acc)

/-- Lowercase hex digits of `n` (no padding), as `%x` formats it. -/
def hexLower (n : Nat) : List Char :=
  if n = 0 then ['0'] else hexDigsGo (n + 1) n []

/-- Python `'%0wx' % n`: zero-pad to width `w`, longer if needed. -/
def hexPad (w n : Nat) : List Char :=
  let d := hexLower n
  List.replicate (w - d.length) '0' ++ d

def upperC (c : Char) : Char :=
  if 97 ≤ c.toNat ∧ c.toNat ≤ 122 then Char.ofNat (c.toNat - 32) else c

/-- Python `str.upper` on ASCII text. -/
def upperL (l : List Char) : List Char := l.map upperC

/-- `SRecBuilder.checksum` under Python 3: `unhexlify(hexastr)` is a
`bytes`; iterating it yields `int`s, and `ord(int)` raises `TypeError`
on the first element.  Only an empty hex string runs zero `ord` calls
(empty sum) and returns `(0 & 0xff) ^ 0xff`; invalid hex raises
`binascii.Error` first. -/
def SRecBuilder.checksum (hexastr : List Char) : Except PyErr Nat :=
  match unhexlifyL hexastr with
  | none => .error .valueErr
  | some [] => .ok ((([] : List Nat).sum &&& 0xff) ^^^ 0xff)
  | some (_ :: _) => .error .typeErr

/-- `SRecBuilder._create_info` under Python 3: `line += hexlify(msg)`
concatenates `str + bytes` and raises `TypeError` unconditionally
(`hexlify` returns `bytes` even for an empty message). -/
def SRecBuilder.create_info (_segment : RecordSegment) :
    Except PyErr (List Char) :=
  .error .typeErr

/-- `SRecBuilder._create_data` under Python 3: for a segment with data,
the first loop iteration evaluates `prefix % (...) + hexachunk`, a
`str + bytes` concatenation that raises `TypeError`; a segment without
data runs zero iterations and yields no lines (the preceding `S1/S2/S3`
width selection from `segment.baseaddr + len(data)` raises nothing). -/
def SRecBuilder.create_data (_offset : Nat) (segment : RecordSegment) :
    Except PyErr (List (List Char)) :=
  if segment.data.isEmpty then .ok [] else .error .typeErr

/-- `SRecBuilder._create_exec` under Python 3: the `S9`/`S8`/`S7` body
(fixed count byte plus 4/6/8 address digits) is formatted, then fed to
`checksum`, which raises `TypeError` on its non-empty hex argument. -/
def SRecBuilder.create_exec (address : Nat) : Except PyErr (List Char) :=
  let dcw : Nat × Nat × Nat :=
    if address < 65536 then (9, 3, 4)
    else if address < 16777216 then (8, 4, 6)
    else (7, 5, 8)
  let body := hexPad 2 dcw.2.1 ++ hexPad dcw.2.2 address
  match SRecBuilder.checksum body with
  | .error e => .error e
  | .ok c => .ok (upperL (['S', hexCharL dcw.1] ++ body ++ hexPad 2 c))

/-- The per-segment data loop of `RecordBuilder.build` for
`SRecBuilder` (an exception from any segment aborts the build). -/
def srecBuildData (offset : Nat) :
    List RecordSegment → Except PyErr (List (List Char))
  | [] => .ok []
  | s :: rest =>
    match SRecBuilder.create_data offset s with
    | .error e => .error e
    | .ok ls => (srecBuildData offset rest).map (fun r => ls ++ r)

/-- `RecordBuilder.build` for `SRecBuilder`, as the list of emitted
lines (the line separators joined in by `build` are split off again by
the parser's line iteration; exceptions from the `_create_*` helpers
propagate): info record if any, data records per segment (each segment
restarting from the same `offset` argument), exec record if any;
`_create_eof` is `''` and is skipped by `if eof:`. -/
def SRecBuilder.build (datasegs : List RecordSegment)
    (infoseg : Option RecordSegment) (execaddr : Option Nat) (offset : Nat) :
    Except PyErr (List (List Char)) :=
  match (match infoseg with
         | some i => (SRecBuilder.create_info i).map (fun l => [l])
         | none => .ok []) with
  | .error e => .error e
  | .ok infoLines =>
    match srecBuildData offset datasegs with
    | .error e => .error e
    | .ok dataLines =>
      match (match execaddr with
             | some a => (SRecBuilder.create_exec a).map (fun l => [l])
             | none => .ok []) with
      | .error e => .error e
      | .ok execLines => .ok (infoLines ++ dataLines ++ execLines)

/-- Space-join of `' '.join(...)`. -/
def tiJoin : List (List Char) → List Char
  | [] => []
  | [x] => x
  | x :: y :: r => x ++ ' ' :: tiJoin (y :: r)

/-- Data-line loop of `TItxtBuilder._create_data`: 16-byte chunks as
space-separated uppercase hex byte pairs (first argument is
structural-recursion fuel, the call site passes the data length). -/
def tiDataGo : Nat → List Nat → List (List Char)
  | 0, _ => []
  | _, [] => []
  | fuel + 1, b :: rest =>
    upperL (tiJoin (((b :: rest).take 16).map (fun x => hexPad 2 x))) ::
      tiDataGo fuel ((b :: rest).drop 16)

/-- `TItxtBuilder._create_data`: an `@xxxx` line (lowercase `%04x`,
not uppercased by the source) when the segment has data, then the data
lines. -/
def TItxtBuilder.create_data (offset : Int) (segment : RecordSegment) :
    List (List Char) :=
  (if segment.data.isEmpty then []
   else ['@' :: hexPad 4 (segment.baseaddr + offset).toNat]) ++
  tiDataGo segment.data.length segment.data

/-- `RecordBuilder.build` for `TItxtBuilder` as called by `srec2ti`
(no info record, no exec address — `TItxtBuilder` defines no
`_create_exec`); `_create_eof` is `'q'`. -/
def TItxtBuilder.build (datasegs : List RecordSegment) (offset : Int) :
    List (List Char) :=
  (datasegs.flatMap fun seg => TItxtBuilder.create_data offset seg) ++ [['q']]

/-! ### `RecordParser.__init__` -/

/-- The fields `RecordParser.__init__` assigns (minus display-only
`verbose`); `src` is the source stream, stored untouched. -/
structure RPInit where
  src : List (List Char)
  offset : Int
  min_addr : Int
  max_addr : Int
  exec_addr : Option Nat
  segments : List RecordSegment
  infoSeg : Option RecordSegment
  gap : Int
  seg : Option RecordSegment
  vfy : Bool
deriving DecidableEq, Repr

/-- `RecordParser.__init__`: `segment_gap < 1` raises
`ValueError("Invalid segment gap")` before anything else; otherwise the
fields are assigned and the source stream is not read. -/
def RecordParser.init (src : List (List Char)) (offset mn mx segment_gap : Int)
    (verify : Bool) : Except String RPInit :=
  if segment_gap < 1 then .error ("Invalid segment gap")
  else .ok ⟨src, offset, mn, mx, none, [], none, segment_gap, none, verify⟩

/-! ### Merge driver (`mergehex.py` `main`) -/

inductive MErr where
  /-- `RuntimeError('Several start up address are defined')`. -/
  | execConflict
  /-- `RuntimeError('Segment override')`. -/
  | overlap
deriving DecidableEq, Repr

/-- One parsed input of the merge driver: its execution address and its
data segments. -/
structure MInput where
  exec : Option Nat
  segs : List RecordSegment
deriving DecidableEq, Repr

/-- The overlap test of `mergehex.main`:
`c_end >= s_start and c_start < s_end` (note `>=`, not `>`). -/
def Mergehex.clash (c s : RecordSegment) : Bool :=
  decide (c.baseaddr + c.size ≥ s.baseaddr) &&
    decide (c.baseaddr < s.baseaddr + s.size)

/-- Stable insertion by `baseaddr`, the effect of the stable
`segments.sort(key=lambda seg: seg.baseaddr)` after each append. -/
def Mergehex.insertByBase (c : RecordSegment) :
    List RecordSegment → List RecordSegment
  | [] => [c]
  | s :: rest =>
    if c.baseaddr < s.baseaddr then c :: s :: rest
    else s :: Mergehex.insertByBase c rest

/-- Accept one segment: scan every previously accepted segment for a
clash, then append and re-sort. -/
def Mergehex.addSegment (acc : List RecordSegment) (c : RecordSegment) :
    Except MErr (List RecordSegment) :=
  if acc.any (Mergehex.clash c) then .error .overlap
  else .ok (Mergehex.insertByBase c acc)

/-- Process one input of `mergehex.main` (with `--noexec` not given):
the start-address conflict check, then each of the input's segments. -/
def Mergehex.procInput (sa : Option Nat × List RecordSegment) (inp : MInput) :
    Except MErr (Option Nat × List RecordSegment) :=
  let chk : Except MErr (Option Nat) :=
    match inp.exec with
    | some e =>
      match sa.1 with
      | some s => if s ≠ e then .error MErr.execConflict else .ok (some s)
      | none => .ok (some e)
    | none => .ok sa.1
  match chk with
  | .error e => .error e
  | .ok sa' =>
    (inp.segs.foldlM Mergehex.addSegment sa.2).map (fun acc => (sa', acc))

/-- The accumulation loop of `mergehex.main` over all `-i` inputs. -/
def Mergehex.mergeInputs (inputs : List MInput) :
    Except MErr (Option Nat × List RecordSegment) :=
  inputs.foldlM Mergehex.procInput (none, [])

/-! ### Concrete inputs used by the claims -/

/-- View of a segment as the claim-relevant observables
`(base_address, size, bytes)`. -/
def segView (s : RecordSegment) : Int × Int × List Nat :=
  (s.baseaddr, s.size, s.data)

/-- A 16-byte data chunk. -/
def d16c : List Nat := List.replicate 16 0xAB

def c1seg : RecordSegment := ⟨256, 2, 2, [0xAA, 0xBB]⟩

def c2line : List Char := (":02010000AABB98").toList

def c7line : List Char := (":0400000500012000D6").toList

def c3eofLine : List Char := (":00000001FF").toList

def c4line1bad : List Char :=
  ("S1130000214601360121470136007EFE09D2190140").toList

def c4line1 : List Char :=
  ("S1130000214601360121470136007EFE09D219013D").toList

def c4line2 : List Char := ("S9030000FC").toList

def c4payload : List Nat :=
  [0x21, 0x46, 0x01, 0x36, 0x01, 0x21, 0x47, 0x01,
   0x36, 0x00, 0x7E, 0xFE, 0x09, 0xD2, 0x19, 0x01]

/-! ### Claim theorems (C1, C2, C4 .. C10); C3 follows after the
equivalence development. -/

/-- C1: the claimed parse/build round-trip fails for two of the three
formats (Intel HEX does round-trip).  For the segment list
`[Segment(base=0x0100, bytes=AA BB)]`, `SRecBuilder.build` raises
`TypeError` before emitting any line — the repository runs Python 3 and
`SRecBuilder` is unported Python-2 code (`str + bytes` in
`_create_data`, `ord(int)` in `checksum`) — so no S-Record round trip
exists at all; the address field its loop would have encoded is the
running build offset, not `baseaddr`, in any case.
`TItxtParser.parse(TItxtBuilder.build(S))` fails as well: the builder
emits space-separated hex byte pairs and the parser decodes data lines
with `unhexlify`, which rejects spaces. -/
theorem C1_roundtrip_broken :
    SRecBuilder.build [c1seg] none none 0 = .error .typeErr ∧
    TItxtParse optsDefault (TItxtBuilder.build [c1seg] 0) =
      .error .badHex := by
  decide

/-- C2: with `verify=True` and bounds `[0x0, 0xFF]`, a DATA record at
address `0x0100` is accepted by both Intel HEX parsers: the guard
`if self._verify and record:` is false for record type `00` (DATA), so
`_verify_address` is never called for Intel HEX data records. -/
theorem C2_ihex_data_range_unchecked :
    IHexParse ⟨0, 0, 0xFF, 16, true⟩ [c2line] =
      .ok ⟨none, [⟨0x100, 2, 2, [0xAA, 0xBB]⟩], none, none⟩ ∧
    IHexFastParse ⟨0, 0, 0xFF, 16, true⟩ [c2line] =
      .ok ⟨none, [⟨0x100, 2, 2, [0xAA, 0xBB]⟩], none, none⟩ := by
  decide

/-- C7: a well-formed type-05 (start linear address) record is not an
EXECUTE record for either Intel HEX parser: the line-oriented parser
raises "Unsupported IHEX record: 5", and the fast parser falls through
all of its record branches, silently ignoring the record and leaving the
execution address unset. -/
theorem C7_type05_not_execute :
    IHexParse optsDefault [c7line] = .error (.unsupported 5) ∧
    IHexFastParse optsDefault [c7line] = .ok ⟨none, [], none, none⟩ := by
  decide

/-- C3 (counterexample): on the well-formed input consisting of a
type-05 record and an EOF record, `IHexParser.parse` errors while
`IHexFastParser.parse` succeeds, so the two parsers are not equivalent
on all well-formed inputs. -/
theorem C3_type05_divergence :
    IHexParse optsDefault [c7line, c3eofLine] = .error (.unsupported 5) ∧
    IHexFastParse optsDefault [c7line, c3eofLine] =
      .ok ⟨none, [], none, none⟩ := by
  decide

/-- C4 (counterexample): the claimed S-record pair is rejected with
default options: the first line's trailing `40` is an Intel-HEX-style
checksum; the S-record one's-complement checksum of
`13 0000 2146...1901` is `0x3D`, and `SRecParser` raises
"Invalid checksum: 0x40 / 0x3d". -/
theorem C4_claimed_lines_rejected :
    SRecParse optsDefault [c4line1bad, c4line2] =
      .error (.checksum 0x40 0x3D) := by
  decide

/-- C4 (amended): with the first line's checksum corrected to `3D`,
parsing with default options yields exactly one segment at base `0x0000`
holding the 16 payload bytes and exec address `0x0000`; rebuilding that
result with `SRecBuilder` does not reproduce the two lines — it raises
`TypeError` before emitting anything, because `SRecBuilder` is unported
Python-2 code (`str + bytes` concatenation in `_create_data`,
`ord(int)` in `checksum`) in a Python-3 repository. -/
theorem C4_corrected_example :
    SRecParse optsDefault [c4line1, c4line2] =
      .ok ⟨none, [⟨0, 16, 16, c4payload⟩], some 0, none⟩ ∧
    SRecBuilder.build [⟨0, 16, 16, c4payload⟩] none (some 0) 0 =
      .error .typeErr := by
  decide

/-- C5 (counterexample): merging two disjoint, merely adjacent segments
`[0x10, 0x20)` then `[0x00, 0x10)` raises the overlap error, because the
test `c_end >= s_start and c_start < s_end` uses `>=`: a new segment
whose end equals an accepted segment's start is rejected.  So disjoint
(adjacent) segments do not merge successfully in every input order. -/
theorem C5_adjacent_rejected :
    Mergehex.mergeInputs [⟨none, [⟨16, 16, 0, []⟩]⟩, ⟨none, [⟨0, 16, 0, []⟩]⟩] =
      .error .overlap := by
  decide

/-- C5 (amended): the merge driver rejects a new segment `c` iff some
previously accepted segment `s` satisfies
`c.end ≥ s.start ∧ c.start < s.end` — true interval intersection or the
new segment ending exactly at an accepted segment's start.  The claim's
`[0x1000,0x1010)` vs `[0x1008,0x1020)` case is rejected, and disjoint
segments presented in increasing address order (adjacency included) are
accepted. -/
theorem C5_overlap_rule :
    (∀ (acc : List RecordSegment) (c : RecordSegment),
        Mergehex.addSegment acc c = .error .overlap ↔
          ∃ s ∈ acc, s.baseaddr ≤ c.baseaddr + c.size ∧
            c.baseaddr < s.baseaddr + s.size) ∧
    Mergehex.mergeInputs
        [⟨none, [⟨0x1000, 0x10, 0, []⟩]⟩, ⟨none, [⟨0x1008, 0x18, 0, []⟩]⟩] =
      .error .overlap ∧
    Mergehex.mergeInputs [⟨none, [⟨0, 16, 0, []⟩]⟩, ⟨none, [⟨16, 16, 0, []⟩]⟩] =
      .ok (none, [⟨0, 16, 0, []⟩, ⟨16, 16, 0, []⟩]) := by
  refine ⟨fun acc c => ?_, by decide, by decide⟩
  constructor
  · intro h
    by_cases ha : acc.any (Mergehex.clash c) = true
    · rw [List.any_eq_true] at ha
      obtain ⟨s, hs, hc⟩ := ha
      simp only [Mergehex.clash, Bool.and_eq_true, decide_eq_true_eq] at hc
      exact ⟨s, hs, hc.1, hc.2⟩
    · rw [Mergehex.addSegment, if_neg ha] at h
      exact absurd h (by simp)
  · rintro ⟨s, hs, h1, h2⟩
    have ha : acc.any (Mergehex.clash c) = true :=
      List.any_eq_true.mpr ⟨s, hs, by
        simp only [Mergehex.clash, Bool.and_eq_true, decide_eq_true_eq]
        exact ⟨h1, h2⟩⟩
    rw [Mergehex.addSegment, if_pos ha]

/-- Every successful `write_with_size` keeps the segment's base
address. -/
theorem write_with_size_baseaddr (s : RecordSegment) (d : List Nat) (sz : Int)
    (off : Option Int) (s' : RecordSegment)
    (h : s.write_with_size d sz off = .ok s') : s'.baseaddr = s.baseaddr := by
  cases off with
  | none =>
    simp only [RecordSegment.write_with_size, Except.ok.injEq] at h
    rw [← h]
  | some a =>
    simp only [RecordSegment.write_with_size] at h
    by_cases h1 : a - s.baseaddr ≠ s.size
    · rw [if_pos h1] at h
      by_cases h2 : a - s.baseaddr < 0
      · rw [if_pos h2] at h; exact absurd h (by simp)
      · rw [if_neg h2] at h
        simp only [Except.ok.injEq] at h
        rw [← h]
    · rw [if_neg h1] at h
      simp only [Except.ok.injEq] at h
      rw [← h]

/-- C6 (counterexample): DATA writes at `0x0000` (16 bytes) then at
`0x0020` with `segment_gap=16` produce two segments, although `0x0020`
is neither farther than 16 bytes beyond the open segment's current end
(`0x0010`) nor before its start — the code splits at distance `>= gap`,
not `> gap`. -/
theorem C6_boundary_split :
    (parseFromRecords optsDefault [.data 0 d16c, .data 32 d16c]).map
        (fun p => p.segments.length) = .ok 2 ∧
    ¬((32 : Int) - 16 > 16 ∨ (32 : Int) < 0) := by
  decide

/-- C6 (amended): with an open segment `s`, a DATA record at decoded
address `addr` closes `s` (storing it if its size is non-zero) and opens
a fresh segment at `addr` exactly when `|addr - s.absaddr| ≥ segment_gap`
— the absolute distance from the current end, in either direction;
otherwise the record is written into the open segment (same base, same
stored segment list).  The claim's two concrete scenarios hold: writes at
`0x0000` and `0x0010` with gap 16 coalesce into one 32-byte segment,
while `0x0000` and `0x0100` give two segments. -/
theorem C6_gap_policy :
    (∀ (o : POpts) (p : PState) (s : RecordSegment) (a : Nat) (v : List Nat),
        p.seg = some s → |((a : Int) - o.offset) - s.absaddr| ≥ o.gap →
        recStep o p (.data a v) =
          .ok ⟨some ⟨(a : Int) - o.offset, (v.length : Int), v.length, v⟩,
               p.segments ++ (if s.size ≠ 0 then [s] else []),
               p.execAddr, p.infoSeg⟩) ∧
    (∀ (o : POpts) (p : PState) (s : RecordSegment) (a : Nat) (v : List Nat)
        (p' : PState),
        p.seg = some s → |((a : Int) - o.offset) - s.absaddr| < o.gap →
        recStep o p (.data a v) = .ok p' →
        p'.segments = p.segments ∧
          ∃ s', p'.seg = some s' ∧ s'.baseaddr = s.baseaddr) ∧
    (parseFromRecords optsDefault [.data 0 d16c, .data 16 d16c]).map
        (fun p => p.segments.map segView) =
      .ok [((0 : Int), (32 : Int), d16c ++ d16c)] ∧
    (parseFromRecords optsDefault [.data 0 d16c, .data 256 d16c]).map
        (fun p => p.segments.map segView) =
      .ok [((0 : Int), (16 : Int), d16c), ((256 : Int), (16 : Int), d16c)] := by
  refine ⟨?_, ?_, by decide, by decide⟩
  · intro o p s a v h h2
    simp only [recStep, h, if_pos h2, storeSegment]
    by_cases hz : s.size = 0
    · simp [hz, RecordSegment.write, RecordSegment.write_with_size,
        RecordSegment.mk0, bioWrite, Except.map]
    · simp [hz, RecordSegment.write, RecordSegment.write_with_size,
        RecordSegment.mk0, bioWrite, Except.map]
  · intro o p s a v p' h h2 h3
    simp only [recStep, h, if_neg (not_le.mpr h2)] at h3
    cases hw : s.write v (some ((a : Int) - o.offset)) with
    | error e => rw [hw] at h3; exact absurd h3 (by simp [Except.map])
    | ok s' =>
      rw [hw] at h3
      simp only [Except.map, Except.ok.injEq] at h3
      rw [← h3]
      exact ⟨rfl, s', rfl,
        write_with_size_baseaddr s v v.length (some ((a : Int) - o.offset)) s' hw⟩

/-- C6 (witness for the amended theorem's hypothesised parts). -/
theorem C6_gap_policy_w :
    recStep optsDefault ⟨some ⟨0, 16, 16, d16c⟩, [], none, none⟩ (.data 256 d16c) =
      .ok ⟨some ⟨256, 16, 16, d16c⟩, [⟨0, 16, 16, d16c⟩], none, none⟩ ∧
    ((⟨some ⟨0, 32, 32, d16c ++ d16c⟩, [], none, none⟩ : PState).segments = [] ∧
      ∃ s', (⟨some ⟨0, 32, 32, d16c ++ d16c⟩, [], none, none⟩ : PState).seg = some s' ∧
        s'.baseaddr = (⟨0, 16, 16, d16c⟩ : RecordSegment).baseaddr) := by
  constructor
  · have := C6_gap_policy.1 optsDefault ⟨some ⟨0, 16, 16, d16c⟩, [], none, none⟩
      ⟨0, 16, 16, d16c⟩ 256 d16c rfl (by decide)
    rw [this]
    decide
  · exact C6_gap_policy.2.1 optsDefault ⟨some ⟨0, 16, 16, d16c⟩, [], none, none⟩
      ⟨0, 16, 16, d16c⟩ 16 d16c ⟨some ⟨0, 32, 32, d16c ++ d16c⟩, [], none, none⟩
      rfl (by decide) (by decide)

/-- Inputs that carry only an execution address (no segments), as fed to
the merge driver. -/
def execOnly (xs : List (Option Nat)) : List MInput :=
  xs.map fun e => ⟨e, []⟩

theorem procInput_execOnly (sa : Option Nat) (acc : List RecordSegment)
    (e : Option Nat) :
    Mergehex.procInput (sa, acc) ⟨e, []⟩ =
      (match e with
       | some v =>
         match sa with
         | some s => if s ≠ v then .error MErr.execConflict else .ok (some s, acc)
         | none => .ok (some v, acc)
       | none => .ok (sa, acc)) := by
  cases e with
  | none => rfl
  | some v =>
    cases sa with
    | none => rfl
    | some s =>
      by_cases h : s ≠ v
      · simp only [Mergehex.procInput, if_pos h]
      · simp only [Mergehex.procInput, if_neg h]
        rfl

theorem mergeFold_allNone (xs : List (Option Nat)) (sa : Option Nat)
    (h : ∀ x ∈ xs, x = none) :
    (execOnly xs).foldlM Mergehex.procInput (sa, []) = .ok (sa, []) := by
  induction xs with
  | nil => rfl
  | cons x rest ih =>
    have hx : x = none := h x (List.mem_cons_self _ _)
    subst hx
    simp only [execOnly, List.map_cons, List.foldlM_cons, procInput_execOnly]
    exact ih (fun y hy => h y (List.mem_cons_of_mem _ hy))

theorem mergeFold_conflict1 (xs : List (Option Nat)) (u w : Nat) (hne : w ≠ u)
    (hw : some w ∈ xs) :
    (execOnly xs).foldlM Mergehex.procInput (some u, []) =
      .error MErr.execConflict := by
  induction xs with
  | nil => exact absurd hw (List.not_mem_nil _)
  | cons x rest ih =>
    simp only [execOnly, List.map_cons, List.foldlM_cons, procInput_execOnly]
    cases x with
    | none =>
      have : some w ∈ rest := by
        rcases List.mem_cons.mp hw with h | h
        · exact absurd h (by simp)
        · exact h
      exact ih this
    | some y =>
      dsimp only
      by_cases hy : u ≠ y
      · rw [if_pos hy]
        rfl
      · push_neg at hy
        subst hy
        rw [if_neg (fun hc => hc rfl)]
        have hwr : some w ∈ rest := by
          rcases List.mem_cons.mp hw with h | h
          · exact absurd (Option.some.inj h) hne
          · exact h
        exact ih hwr

theorem mergeFold_conflict (xs : List (Option Nat)) (v w : Nat) (hne : v ≠ w)
    (hv : some v ∈ xs) (hw : some w ∈ xs) :
    Mergehex.mergeInputs (execOnly xs) = .error MErr.execConflict := by
  unfold Mergehex.mergeInputs
  induction xs with
  | nil => exact absurd hv (List.not_mem_nil _)
  | cons x rest ih =>
    simp only [execOnly, List.map_cons, List.foldlM_cons, procInput_execOnly]
    cases x with
    | none =>
      have hv' : some v ∈ rest := by
        rcases List.mem_cons.mp hv with h | h
        · exact absurd h (by simp)
        · exact h
      have hw' : some w ∈ rest := by
        rcases List.mem_cons.mp hw with h | h
        · exact absurd h (by simp)
        · exact h
      exact ih hv' hw'
    | some y =>
      by_cases hvy : v = y
      · subst hvy
        have hw' : some w ∈ rest := by
          rcases List.mem_cons.mp hw with h | h
          · exact absurd (Option.some.inj h) (Ne.symm hne)
          · exact h
        exact mergeFold_conflict1 rest v w (Ne.symm hne) hw'
      · have hv' : some v ∈ rest := by
          rcases List.mem_cons.mp hv with h | h
          · exact absurd (Option.some.inj h) hvy
          · exact h
        exact mergeFold_conflict1 rest y v hvy hv'

/-- C8: the execution-address rules of the merge driver.  Two inputs
with different non-null exec addresses make the merge fail with the
start-address-conflict error; when exactly one input defines an exec
address and all others are null, the merge succeeds and carries that
address.  Concretely, exec `0x8000` vs `0x9000` (with disjoint
segments) fails, and `0x8000` vs `None` succeeds yielding `0x8000`. -/
theorem C8_exec_rules :
    (∀ (xs : List (Option Nat)) (v w : Nat), v ≠ w →
        some v ∈ xs → some w ∈ xs →
        Mergehex.mergeInputs (execOnly xs) = .error MErr.execConflict) ∧
    (∀ (as bs : List (Option Nat)) (v : Nat),
        (∀ x ∈ as, x = none) → (∀ x ∈ bs, x = none) →
        Mergehex.mergeInputs (execOnly (as ++ some v :: bs)) = .ok (some v, [])) ∧
    Mergehex.mergeInputs
        [⟨some 0x8000, [⟨0x1000, 16, 0, []⟩]⟩, ⟨some 0x9000, [⟨0x2000, 16, 0, []⟩]⟩] =
      .error MErr.execConflict ∧
    Mergehex.mergeInputs
        [⟨some 0x8000, [⟨0x1000, 16, 0, []⟩]⟩, ⟨none, [⟨0x2000, 16, 0, []⟩]⟩] =
      .ok (some 0x8000, [⟨0x1000, 16, 0, []⟩, ⟨0x2000, 16, 0, []⟩]) := by
  refine ⟨mergeFold_conflict, ?_, by decide, by decide⟩
  intro as bs v ha hb
  unfold Mergehex.mergeInputs
  have hsplit : execOnly (as ++ some v :: bs) =
      execOnly as ++ execOnly (some v :: bs) := by
    simp [execOnly]
  rw [hsplit, List.foldlM_append, mergeFold_allNone as none ha]
  have h2 : List.foldlM Mergehex.procInput ((none : Option Nat),
      ([] : List RecordSegment)) (execOnly (some v :: bs)) = .ok (some v, []) := by
    simp only [execOnly, List.map_cons, List.foldlM_cons, procInput_execOnly]
    exact mergeFold_allNone bs (some v) hb
  exact h2

/-- C8 (witness). -/
theorem C8_exec_rules_w :
    Mergehex.mergeInputs (execOnly [some 0x8000, some 0x9000]) =
        .error MErr.execConflict ∧
      Mergehex.mergeInputs (execOnly ([none] ++ some 0x8000 :: [none])) =
        .ok (some 0x8000, []) :=
  ⟨C8_exec_rules.1 [some 0x8000, some 0x9000] 0x8000 0x9000 (by decide)
      (by decide) (by decide),
   C8_exec_rules.2.1 [none] [none] 0x8000 (by decide) (by decide)⟩

/-- C9 (counterexample): a `write` whose `at_address` (5) differs from
`base + size` (2) does not append: the buffer is seeked to offset 5,
zero-filling bytes 2..4 — the result is not the previous data followed
by the written bytes. -/
theorem C9_seek_not_append :
    RecordSegment.write ⟨0, 2, 2, [1, 2]⟩ [3, 4] (some 5) =
        .ok ⟨0, 7, 7, [1, 2, 0, 0, 0, 3, 4]⟩ ∧
      ([1, 2, 0, 0, 0, 3, 4] : List Nat) ≠ [1, 2] ++ [3, 4] := by
  decide

/-- C9 (amended): when `at_address` differs from `base_address + size`,
the write seeks the buffer to `at_address - base_address` and writes
there (Python raises on a negative seek, excluded here by hypothesis):
the new size is `(at_address - base_address) + len(data)`, and the
buffer becomes `bioWrite buf pos data` — in particular, past the end of
the buffer the gap is zero-filled, so the old data is preserved but the
result is not plain concatenation; before the end, existing bytes are
overwritten. -/
theorem C9_seek_semantics :
    (∀ (s : RecordSegment) (d : List Nat) (a : Int),
        a - s.baseaddr ≠ s.size → 0 ≤ a - s.baseaddr →
        s.write d (some a) =
          .ok ⟨s.baseaddr, a - s.baseaddr + d.length,
               (a - s.baseaddr).toNat + d.length,
               bioWrite s.buf (a - s.baseaddr).toNat d⟩) ∧
    (∀ (c d : List Nat) (p : Nat), c.length ≤ p →
        bioWrite c p d = c ++ List.replicate (p - c.length) 0 ++ d) := by
  constructor
  · intro s d a h1 h2
    simp only [RecordSegment.write, RecordSegment.write_with_size, if_pos h1,
      if_neg (not_lt.mpr h2), Except.ok.injEq, RecordSegment.mk.injEq,
      and_true, true_and]
    omega
  · intro c d p hp
    have hlen : (c ++ List.replicate (p - c.length) 0).length = p := by
      simp
      omega
    simp only [bioWrite]
    rw [List.take_of_length_le (le_of_eq hlen),
      List.drop_eq_nil_of_le (by rw [hlen]; omega), List.append_nil]

/-- C9 (witness). -/
theorem C9_seek_semantics_w :
    RecordSegment.write ⟨0, 2, 2, [1, 2]⟩ [3, 4] (some 5) =
        .ok ⟨0, 5 - 0 + 2, (5 - 0 : Int).toNat + 2, bioWrite [1, 2] (5 - 0 : Int).toNat [3, 4]⟩ ∧
      bioWrite [1, 2] 5 [3, 4] = [1, 2] ++ List.replicate (5 - 2) 0 ++ [3, 4] :=
  ⟨C9_seek_semantics.1 ⟨0, 2, 2, [1, 2]⟩ [3, 4] 5 (by decide) (by decide),
   C9_seek_semantics.2 [1, 2] [3, 4] 5 (by decide)⟩

/-- C10: `RecordParser.__init__` rejects `segment_gap < 1` with
`ValueError("Invalid segment gap")` before touching anything else, and
for `segment_gap ≥ 1` it only assigns the fields — the source stream is
stored untouched (nothing is read). -/
theorem C10_gap_guard :
    (∀ (src : List (List Char)) (offset mn mx g : Int) (v : Bool), g < 1 →
        RecordParser.init src offset mn mx g v =
          .error ("Invalid segment gap")) ∧
    (∀ (src : List (List Char)) (offset mn mx g : Int) (v : Bool), 1 ≤ g →
        RecordParser.init src offset mn mx g v =
          .ok ⟨src, offset, mn, mx, none, [], none, g, none, v⟩) := by
  constructor
  · intro src offset mn mx g v h
    rw [RecordParser.init, if_pos h]
  · intro src offset mn mx g v h
    rw [RecordParser.init, if_neg (not_lt.mpr h)]

/-- C10 (witness). -/
theorem C10_gap_guard_w :
    RecordParser.init [] 0 0 0xffffffff 0 true =
        .error ("Invalid segment gap") ∧
      RecordParser.init [] 0 0 0xffffffff 16 true =
        .ok ⟨[], 0, 0, 0xffffffff, none, [], none, 16, none, true⟩ :=
  ⟨C10_gap_guard.1 [] 0 0 0xffffffff 0 true (by decide),
   C10_gap_guard.2 [] 0 0 0xffffffff 16 true (by decide)⟩

/-! ### Equivalence of the two Intel HEX parsers on well-formed input

A well-formed Intel HEX line is modelled by its fields (`IHRec`) and the
encoding of those fields into the text line.  On such lines the
line-oriented chunker and the fast parser's per-line step are computed in
closed form, and the two parses are proved equal by induction. -/

/-- Uppercase hex digit character. -/
def hexCharU (n : Nat) : Char :=
  if n < 10 then Char.ofNat (48 + n) else Char.ofNat (55 + n)

/-- The two hex digits of a byte. -/
def toPair (b : Nat) : List Char := [hexCharU (b / 16), hexCharU (b % 16)]

def hexPairs (bs : List Nat) : List Char := bs.flatMap toPair

/-- Fields of one Intel HEX record: byte count, 16-bit address, record
type, data bytes, checksum byte. -/
structure IHRec where
  sz : Nat
  addr : Nat
  rty : Nat
  dat : List Nat
  cks : Nat
deriving DecidableEq, Repr

/-- The record's bytes in line order. -/
def IHRec.bytes (r : IHRec) : List Nat :=
  [r.sz, r.addr / 256, r.addr % 256, r.rty] ++ r.dat ++ [r.cks]

/-- The encoded text line: `:` then the bytes in hex. -/
def ihEncodeLine (r : IHRec) : List Char := ':' :: hexPairs r.bytes

/-- Well-formedness: the count matches the data, fields are in range,
the checksum is the Intel two's-complement sum, the record type is one
of the five the format defines with its mandated payload size, and an
EOF record carries address 0. -/
def IHRec.wf (r : IHRec) : Prop :=
  r.sz = r.dat.length ∧ r.sz < 256 ∧ r.addr < 65536 ∧
  (∀ b ∈ r.dat, b < 256) ∧
  r.cks = (256 - ([r.sz, r.addr / 256, r.addr % 256, r.rty] ++ r.dat).sum % 256) % 256 ∧
  (r.rty = 0 ∨ (r.rty = 1 ∧ r.addr = 0) ∨ (r.rty = 2 ∧ r.sz = 2) ∨
   (r.rty = 3 ∧ r.sz = 4) ∨ (r.rty = 4 ∧ r.sz = 2))

instance (r : IHRec) : Decidable r.wf := by
  unfold IHRec.wf
  infer_instance

theorem hexDigit?_hexCharU {n : Nat} (h : n < 16) :
    hexDigit? (hexCharU n) = some n := by
  interval_cases n <;> decide

theorem isSpaceC_hexCharU {n : Nat} (h : n < 16) :
    isSpaceC (hexCharU n) = false := by
  interval_cases n <;> decide

theorem unhexlifyL_hexPairs (bs : List Nat) (h : ∀ b ∈ bs, b < 256) :
    unhexlifyL (hexPairs bs) = some bs := by
  induction bs with
  | nil => rfl
  | cons b t ih =>
    have hb : b < 256 := h b (List.mem_cons_self _ _)
    have h1 : b / 16 < 16 := by omega
    have h2 : b % 16 < 16 := by omega
    show unhexlifyL (hexCharU (b / 16) :: hexCharU (b % 16) :: hexPairs t) = _
    simp only [unhexlifyL, hexDigit?_hexCharU h1, hexDigit?_hexCharU h2,
      ih (fun x hx => h x (List.mem_cons_of_mem _ hx)), Option.map_some']
    have : 16 * (b / 16) + b % 16 = b := by omega
    rw [this]

theorem hexValGo_hexPairs (bs : List Nat) (h : ∀ b ∈ bs, b < 256) :
    ∀ acc, hexValGo (hexPairs bs) acc =
      some (bs.foldl (fun a b => 256 * a + b) acc) := by
  induction bs with
  | nil => intro acc; rfl
  | cons b t ih =>
    intro acc
    have hb : b < 256 := h b (List.mem_cons_self _ _)
    have h1 : b / 16 < 16 := by omega
    have h2 : b % 16 < 16 := by omega
    show hexValGo (hexCharU (b / 16) :: hexCharU (b % 16) :: hexPairs t) acc = _
    simp only [hexValGo, hexDigit?_hexCharU h1, hexDigit?_hexCharU h2]
    rw [ih (fun x hx => h x (List.mem_cons_of_mem _ hx))]
    have : 16 * (16 * acc + b / 16) + b % 16 = 256 * acc + b := by omega
    rw [this, List.foldl_cons]

theorem hexVal?_hexPairs (bs : List Nat) (hne : bs ≠ []) (h : ∀ b ∈ bs, b < 256) :
    hexVal? (hexPairs bs) = some (bs.foldl (fun a b => 256 * a + b) 0) := by
  cases bs with
  | nil => exact absurd rfl hne
  | cons b t =>
    rw [hexVal?, if_neg (by
      show ¬(hexPairs (b :: t)).isEmpty = true
      show ¬(hexCharU (b / 16) :: hexCharU (b % 16) :: hexPairs t).isEmpty = true
      simp)]
    exact hexValGo_hexPairs _ h 0

theorem hexVal?_toPair {b : Nat} (h : b < 256) : hexVal? (toPair b) = some b := by
  have : toPair b = hexPairs [b] := by simp [hexPairs, toPair]
  rw [this, hexVal?_hexPairs [b] (by simp) (by simpa using h)]
  simp

theorem hexVal?_toPair2 {a b : Nat} (ha : a < 256) (hb : b < 256) :
    hexVal? (toPair a ++ toPair b) = some (256 * a + b) := by
  have : toPair a ++ toPair b = hexPairs [a, b] := by simp [hexPairs, toPair]
  rw [this, hexVal?_hexPairs [a, b] (by simp) (by
    intro x hx
    rcases List.mem_cons.mp hx with h | h
    · omega
    · simp at h; omega)]
  simp

theorem decVal?_toPair {n : Nat} (h : n < 10) : decVal? (toPair n) = some n := by
  interval_cases n <;> decide

theorem dropWhile_eq_self_of_all {p : Char → Bool} {l : List Char}
    (h : ∀ c ∈ l, p c = false) : l.dropWhile p = l := by
  cases l with
  | nil => rfl
  | cons c t =>
    rw [List.dropWhile_cons, if_neg (by rw [h c (List.mem_cons_self _ _)]; simp)]

theorem stripL_eq_self {l : List Char} (h : ∀ c ∈ l, isSpaceC c = false) :
    stripL l = l := by
  unfold stripL
  rw [dropWhile_eq_self_of_all h,
    dropWhile_eq_self_of_all (fun c hc => h c (List.mem_reverse.mp hc)),
    List.reverse_reverse]

theorem IHRec.wf_bytes_lt (r : IHRec) (h : r.wf) : ∀ b ∈ r.bytes, b < 256 := by
  obtain ⟨hsz, hsz256, haddr, hdat, hcks, hty⟩ := h
  intro b hb
  unfold IHRec.bytes at hb
  simp only [List.append_assoc, List.cons_append, List.nil_append,
    List.mem_cons, List.mem_append, List.mem_singleton] at hb
  rcases hb with h | h | h | h | h
  · omega
  · omega
  · omega
  · rcases hty with h5 | h5 | h5 | h5 | h5 <;> omega
  · rcases h with h | h | h
    · exact hdat b h
    · rw [h, hcks]; omega
    · exact absurd h (List.not_mem_nil b)

theorem ihEncode_no_space (r : IHRec) (hb : ∀ b ∈ r.bytes, b < 256) :
    ∀ c ∈ ihEncodeLine r, isSpaceC c = false := by
  intro c hc
  rcases List.mem_cons.mp hc with h | h
  · rw [h]; rfl
  · obtain ⟨b, hbm, hcp⟩ := List.mem_flatMap.mp h
    have h256 := hb b hbm
    rcases List.mem_cons.mp hcp with h2 | h2
    · rw [h2]; exact isSpaceC_hexCharU (by omega)
    · rw [List.mem_singleton.mp h2]; exact isSpaceC_hexCharU (by omega)

theorem stripL_ihEncode (r : IHRec) (hb : ∀ b ∈ r.bytes, b < 256) :
    stripL (ihEncodeLine r) = ihEncodeLine r :=
  stripL_eq_self (ihEncode_no_space r hb)

theorem hexPairs_length (bs : List Nat) : (hexPairs bs).length = 2 * bs.length := by
  induction bs with
  | nil => rfl
  | cons b t ih =>
    show (toPair b ++ hexPairs t).length = _
    simp [toPair, ih]
    omega

theorem ihEncode_length (r : IHRec) :
    (ihEncodeLine r).length = 11 + 2 * r.dat.length := by
  show (':' :: hexPairs r.bytes).length = _
  rw [List.length_cons, hexPairs_length]
  unfold IHRec.bytes
  simp
  omega

theorem ihEncode_cons (r : IHRec) :
    ihEncodeLine r = ':' :: hexCharU (r.sz / 16) :: hexCharU (r.sz % 16) ::
      hexCharU (r.addr / 256 / 16) :: hexCharU (r.addr / 256 % 16) ::
      hexCharU (r.addr % 256 / 16) :: hexCharU (r.addr % 256 % 16) ::
      hexCharU (r.rty / 16) :: hexCharU (r.rty % 16) ::
      (hexPairs r.dat ++ [hexCharU (r.cks / 16), hexCharU (r.cks % 16)]) := by
  unfold ihEncodeLine IHRec.bytes hexPairs toPair
  simp

theorem slc13 (r : IHRec) : slc (ihEncodeLine r) 1 3 = toPair r.sz := by
  rw [ihEncode_cons]; rfl

theorem slc37 (r : IHRec) :
    slc (ihEncodeLine r) 3 7 = toPair (r.addr / 256) ++ toPair (r.addr % 256) := by
  rw [ihEncode_cons]; rfl

theorem slc79 (r : IHRec) : slc (ihEncodeLine r) 7 9 = toPair r.rty := by
  rw [ihEncode_cons]; rfl

theorem slcNeg92 (r : IHRec) : slcNeg (ihEncodeLine r) 9 2 = hexPairs r.dat := by
  unfold slcNeg
  rw [ihEncode_length]
  have h1 : 11 + 2 * r.dat.length - 2 - 9 = 2 * r.dat.length := by omega
  rw [h1, ihEncode_cons]
  show (hexPairs r.dat ++ [hexCharU (r.cks / 16), hexCharU (r.cks % 16)]).take
    (2 * r.dat.length) = hexPairs r.dat
  rw [← hexPairs_length, List.take_left]

theorem slcLast2 (r : IHRec) : slcLast (ihEncodeLine r) 2 = toPair r.cks := by
  unfold slcLast
  rw [ihEncode_length]
  have h1 : 11 + 2 * r.dat.length - 2 = 9 + 2 * r.dat.length := by omega
  rw [h1, ← List.drop_drop, ihEncode_cons]
  show (hexPairs r.dat ++ [hexCharU (r.cks / 16), hexCharU (r.cks % 16)]).drop
    (2 * r.dat.length) = toPair r.cks
  rw [← hexPairs_length, List.drop_left]
  rfl

theorem hexPairs_split (r : IHRec) :
    hexPairs r.bytes =
      hexPairs ([r.sz, r.addr / 256, r.addr % 256, r.rty] ++ r.dat) ++
        toPair r.cks := by
  unfold IHRec.bytes hexPairs
  simp

theorem slcNeg12 (r : IHRec) :
    slcNeg (ihEncodeLine r) 1 2 =
      hexPairs ([r.sz, r.addr / 256, r.addr % 256, r.rty] ++ r.dat) := by
  unfold slcNeg
  rw [ihEncode_length]
  have h1 : 11 + 2 * r.dat.length - 2 - 1 = 8 + 2 * r.dat.length := by omega
  rw [h1]
  show (hexPairs r.bytes).take (8 + 2 * r.dat.length) = _
  rw [hexPairs_split]
  have h2 : (hexPairs ([r.sz, r.addr / 256, r.addr % 256, r.rty] ++ r.dat)).length
      = 8 + 2 * r.dat.length := by
    rw [hexPairs_length]
    simp
    omega
  rw [← h2, List.take_left]

/-- Next `_offset_addr` state after a well-formed record. -/
def ihexStNext (st : Nat) (r : IHRec) : Nat :=
  if r.rty = 2 then
    Nat.lor (st - st % 2 ^ 20) ((256 * r.dat.getD 0 0 + r.dat.getD 1 0) <<< 4)
  else if r.rty = 4 then (256 * r.dat.getD 0 0 + r.dat.getD 1 0) <<< 16
  else st

/-- The record yielded (if any) for a well-formed line. -/
def ihexORec (st : Nat) (r : IHRec) : Option Rec :=
  if r.rty = 0 then some (.data (r.addr + st) r.dat)
  else if r.rty = 1 then some .eof
  else if r.rty = 3 then
    some (.execute (((256 * r.dat.getD 0 0 + r.dat.getD 1 0) <<< 4) +
      (256 * r.dat.getD 2 0 + r.dat.getD 3 0)))
  else none

theorem verifyAddress_default (g : Int) (address : Nat)
    (h : address < 4294967296) :
    verifyAddress ⟨0, 0, 0xffffffff, g, true⟩ address = .ok () := by
  have h1 : ¬((address : Int) < (0 : Int) ∨ (address : Int) > (4294967295 : Int)) := by
    omega
  have h2 : ¬((address : Int) < (0 : Int)) := by omega
  unfold verifyAddress
  rw [if_neg h1, if_neg h2]

theorem ihexTail_encode (g : Int) (st : Nat) (r0 : IHRec) (ty : RTy)
    (address : Nat)
    (hsz : r0.sz = r0.dat.length) (hdat : ∀ b ∈ r0.dat, b < 256)
    (hsz256 : r0.sz < 256) (haddr : r0.addr < 65536) (hrty10 : r0.rty < 10)
    (hcks : r0.cks =
      (256 - ([r0.sz, r0.addr / 256, r0.addr % 256, r0.rty] ++ r0.dat).sum % 256) % 256)
    (hamax : address < 4294967296)
    (htyd : ty = RTy.dataT → r0.rty = 0) :
    ihexTail ⟨0, 0, 0xffffffff, g, true⟩ st r0.sz r0.rty ty address
        (ihEncodeLine r0) =
      .ok (st, some (mkRec ty (if ty = .dataT then address + st else address)
        r0.dat)) := by
  have hck256 : r0.cks < 256 := by rw [hcks]; omega
  have hball : ∀ b ∈ [r0.sz, r0.addr / 256, r0.addr % 256, r0.rty] ++ r0.dat,
      b < 256 := by
    intro b hb
    rcases List.mem_append.mp hb with h | h
    · simp only [List.mem_cons, List.mem_singleton] at h
      rcases h with h | h | h | h
      · omega
      · omega
      · omega
      · rcases h with h | h
        · omega
        · exact absurd h (List.not_mem_nil b)
    · exact hdat b h
  unfold ihexTail
  rw [slcNeg92, unhexlifyL_hexPairs r0.dat hdat, slcNeg12,
    unhexlifyL_hexPairs _ hball, slcLast2, hexVal?_toPair hck256]
  by_cases h0 : r0.rty = 0
  · simp [hsz, hcks, h0]
  · have hty' : ty ≠ RTy.dataT := fun hc => h0 (htyd hc)
    simp [hsz, hcks, h0, hty', verifyAddress_default g address hamax]

theorem hexVal?_pairs2 {a b : Nat} (ha : a < 256) (hb : b < 256) :
    hexVal? (hexPairs [a, b]) = some (256 * a + b) := by
  rw [hexVal?_hexPairs [a, b] (by simp) (by
    intro x hx
    simp only [List.mem_cons, List.mem_singleton] at hx
    rcases hx with h | h | h
    · omega
    · omega
    · exact absurd h (List.not_mem_nil x))]
  simp

theorem ihexChunkLine_encode (g : Int) (st : Nat) (r0 : IHRec) (hwf : r0.wf) :
    ihexChunkLine ⟨0, 0, 0xffffffff, g, true⟩ st (ihEncodeLine r0) =
      .ok (ihexStNext st r0, ihexORec st r0) := by
  have hb := IHRec.wf_bytes_lt r0 hwf
  obtain ⟨sz, addr, rty, dat, cks⟩ := r0
  obtain ⟨hsz, hsz256, haddr, hdat, hcks, hty⟩ := hwf
  simp only at hsz hsz256 haddr hdat hcks hty
  have h1 : addr / 256 < 256 := by omega
  have h2 : addr % 256 < 256 := by omega
  have hrty10 : rty < 10 := by rcases hty with h|h|h|h|h <;> omega
  have hlN : ¬((ihEncodeLine ⟨sz, addr, rty, dat, cks⟩).length < 5) := by
    rw [ihEncode_length]; omega
  have hhd : ¬((ihEncodeLine ⟨sz, addr, rty, dat, cks⟩).head? ≠ some ':') := by
    rw [ihEncode_cons]; simp
  have hab : 256 * (addr / 256) + addr % 256 = addr := by omega
  have htail := ihexTail_encode g st ⟨sz, addr, rty, dat, cks⟩
  simp only [ihexChunkLine, stripL_ihEncode ⟨sz, addr, rty, dat, cks⟩ hb,
    if_neg hlN, if_neg hhd, slc13, hexVal?_toPair hsz256, slc37,
    hexVal?_toPair2 h1 h2, hab, slc79, decVal?_toPair hrty10]
  rcases hty with hty0 | ⟨hty1, haddr0⟩ | ⟨hty2, hsz2⟩ | ⟨hty3, hsz4⟩ |
    ⟨hty4, hsz2⟩
  · -- record 00: DATA
    rw [if_pos hty0,
      htail .dataT addr hsz hdat hsz256 haddr hrty10 hcks (by omega)
        (fun _ => hty0)]
    simp [ihexStNext, ihexORec, mkRec, hty0]
  · -- record 01: EOF
    rw [if_neg (by omega), if_pos hty1,
      htail .eofT addr hsz hdat hsz256 haddr hrty10 hcks (by omega)
        (fun hc => RTy.noConfusion hc)]
    simp [ihexStNext, ihexORec, mkRec, hty1]
  · -- record 02: extended segment address
    have hdl : dat.length = 2 := by omega
    rcases dat with _ | ⟨d0, _ | ⟨d1, _ | ⟨d2, dr⟩⟩⟩ <;> simp at hdl
    rw [if_neg (by omega), if_neg (by omega), if_pos hty2, slcNeg92]
    have hd0 : d0 < 256 := hdat d0 (by simp)
    have hd1 : d1 < 256 := hdat d1 (by simp)
    rw [show (⟨sz, addr, rty, [d0, d1], cks⟩ : IHRec).dat = [d0, d1] from rfl,
      hexVal?_pairs2 hd0 hd1]
    simp [ihexStNext, ihexORec, hty2, (show ¬rty = 0 by omega), (show ¬rty = 1 by omega),
      (show ¬rty = 3 by omega)]
  · -- record 03: start segment address (EXECUTE)
    have hdl : dat.length = 4 := by omega
    rcases dat with _ | ⟨d0, _ | ⟨d1, _ | ⟨d2, _ | ⟨d3, _ | ⟨d4, dr⟩⟩⟩⟩⟩ <;>
      simp at hdl
    have hd0 : d0 < 256 := hdat d0 (by simp)
    have hd1 : d1 < 256 := hdat d1 (by simp)
    have hd2 : d2 < 256 := hdat d2 (by simp)
    have hd3 : d3 < 256 := hdat d3 (by simp)
    have e913 : slc (ihEncodeLine ⟨sz, addr, rty, [d0, d1, d2, d3], cks⟩) 9 13 =
        toPair d0 ++ toPair d1 := by
      rw [ihEncode_cons]; rfl
    have elen : (ihEncodeLine ⟨sz, addr, rty, [d0, d1, d2, d3], cks⟩).length = 19 := by
      rw [ihEncode_length]; rfl
    have e13n : slcNeg (ihEncodeLine ⟨sz, addr, rty, [d0, d1, d2, d3], cks⟩) 13 2 =
        toPair d2 ++ toPair d3 := by
      unfold slcNeg
      rw [elen, ihEncode_cons]
      rfl
    rw [if_neg (by omega), if_neg (by omega), if_neg (by omega), if_neg (by omega),
      if_pos hty3, e913, hexVal?_toPair2 hd0 hd1, e13n, hexVal?_toPair2 hd2 hd3]
    dsimp only
    rw [htail .execT (((256 * d0 + d1) <<< 4) + (256 * d2 + d3)) hsz hdat hsz256
        haddr hrty10 hcks
        (by rw [Nat.shiftLeft_eq]; omega) (fun hc => RTy.noConfusion hc)]
    simp [ihexStNext, ihexORec, mkRec, hty3, (show ¬rty = 0 by omega),
      (show ¬rty = 1 by omega), (show ¬rty = 2 by omega)]
  · -- record 04: extended linear address
    have hdl : dat.length = 2 := by omega
    rcases dat with _ | ⟨d0, _ | ⟨d1, _ | ⟨d2, dr⟩⟩⟩ <;> simp at hdl
    rw [if_neg (by omega), if_neg (by omega), if_neg (by omega), if_pos hty4,
      slcNeg92]
    have hd0 : d0 < 256 := hdat d0 (by simp)
    have hd1 : d1 < 256 := hdat d1 (by simp)
    rw [show (⟨sz, addr, rty, [d0, d1], cks⟩ : IHRec).dat = [d0, d1] from rfl,
      hexVal?_pairs2 hd0 hd1]
    simp [ihexStNext, ihexORec, hty4, (show ¬rty = 0 by omega), (show ¬rty = 1 by omega),
      (show ¬rty = 2 by omega), (show ¬rty = 3 by omega)]

/-- Apply the (optional) record a well-formed line yields to the parse
state, as `RecordParser.parse` does. -/
def applyORec (o : POpts) (p : PState) : Option Rec → Except RErr PState
  | none => .ok p
  | some rc => recStep o p rc

theorem int_abs_if (x : Int) : (if x < 0 then -x else x) = |x| := by
  by_cases h : x < 0
  · rw [if_pos h, abs_of_neg h]
  · rw [if_neg h, abs_of_nonneg (not_lt.mp h)]

theorem fastMatch_encode (r : IHRec) (hb : ∀ b ∈ r.bytes, b < 256) :
    fastMatch? (ihEncodeLine r) = some r.bytes := by
  unfold fastMatch? ihEncodeLine
  dsimp only
  rw [if_pos rfl, unhexlifyL_hexPairs r.bytes hb]
  have h5 : 5 ≤ r.bytes.length := by
    unfold IHRec.bytes
    simp
  dsimp only
  rw [if_pos h5]

theorem fastLineStep_encode (g : Int) (st : Nat) (p : PState) (r0 : IHRec)
    (hwf : r0.wf) :
    fastLineStep ⟨0, 0, 0xffffffff, g, true⟩ (st, p) (ihEncodeLine r0) =
      (applyORec ⟨0, 0, 0xffffffff, g, true⟩ p (ihexORec st r0)).map
        (fun p' => (ihexStNext st r0, p')) := by
  have hb := IHRec.wf_bytes_lt r0 hwf
  obtain ⟨sz, addr, rty, dat, cks⟩ := r0
  obtain ⟨hsz, hsz256, haddr, hdat, hcks, hty⟩ := hwf
  simp only at hsz hsz256 haddr hdat hcks hty
  have hbytes : (⟨sz, addr, rty, dat, cks⟩ : IHRec).bytes =
      ([sz, addr / 256, addr % 256, rty] ++ dat) ++ [cks] := by
    simp [IHRec.bytes]
  have hgl : (⟨sz, addr, rty, dat, cks⟩ : IHRec).bytes.getLastD 0 = cks := by
    rw [hbytes, List.getLastD_concat]
  have hdrop4 : (((⟨sz, addr, rty, dat, cks⟩ : IHRec).bytes.drop 4).dropLast) = dat := by
    show ((dat ++ [cks]).dropLast) = dat
    rw [List.dropLast_concat]
  have hdlast : (⟨sz, addr, rty, dat, cks⟩ : IHRec).bytes.dropLast =
      [sz, addr / 256, addr % 256, rty] ++ dat := by
    rw [hbytes, List.dropLast_concat]
  have hcsum : ¬(cks ≠ (256 - ([sz, addr / 256, addr % 256, rty] ++ dat).sum % 256) % 256) := by
    rw [hcks]
    exact fun hc => hc rfl
  have hab : (sz :: addr / 256 :: addr % 256 :: rty :: (dat ++ [cks])).getD 1 0 <<< 8 +
      (sz :: addr / 256 :: addr % 256 :: rty :: (dat ++ [cks])).getD 2 0 = addr := by
    show (addr / 256) <<< 8 + addr % 256 = addr
    rw [Nat.shiftLeft_eq]
    omega
  unfold fastLineStep
  rw [fastMatch_encode ⟨sz, addr, rty, dat, cks⟩ hb]
  dsimp only
  rw [hgl]
  simp only [hdrop4, hdlast, List.headD_cons]
  have hh0 : ({ sz := sz, addr := addr, rty := rty, dat := dat, cks := cks } : IHRec).bytes.headD 0 = sz := rfl
  have hg1 : ({ sz := sz, addr := addr, rty := rty, dat := dat, cks := cks } : IHRec).bytes.getD 1 0 = addr / 256 := rfl
  have hg2 : ({ sz := sz, addr := addr, rty := rty, dat := dat, cks := cks } : IHRec).bytes.getD 2 0 = addr % 256 := rfl
  have hg3 : ({ sz := sz, addr := addr, rty := rty, dat := dat, cks := cks } : IHRec).bytes.getD 3 0 = rty := rfl
  have hsh : ∀ x y : Nat, x <<< 8 + y = 256 * x + y := fun x y => by omega
  have hab2 : 256 * (addr / 256) + addr % 256 = addr := by omega
  simp only [hh0, hg1, hg2, hg3, if_true, hsh, hab2]
  rw [if_neg (show ¬(dat.length ≠ sz) by omega), if_neg hcsum]
  have hvd := verifyAddress_default g addr (by omega)
  rcases hty with hty0 | ⟨hty1, haddr0⟩ | ⟨hty2, hsz2⟩ | ⟨hty3, hsz4⟩ |
    ⟨hty4, hsz2⟩
  · -- record 00: DATA
    subst hty0
    simp only [ihexORec, ihexStNext, applyORec, recStep, int_abs_if, hsz]
    have hmm : ∀ (w : Except RErr RecordSegment) (f : RecordSegment → PState)
        (g2 : PState → Nat × PState),
        Except.map g2 (Except.map f w) = Except.map (fun s => g2 (f s)) w := by
      intro w f g2
      cases w <;> rfl
    rw [if_neg (show ¬((0 : Nat) ≠ 0) by omega)]
    dsimp only
    rw [if_pos trivial, if_pos trivial]
    dsimp only
    rw [if_neg (show ¬((0 : Nat) = 2) by omega),
      if_neg (show ¬((0 : Nat) = 4) by omega), hmm]
    rfl
  · -- record 01: EOF
    subst hty1
    subst haddr0
    simp [ihexORec, ihexStNext, applyORec, recStep, hvd, Except.map]
  · -- record 02
    subst hty2
    subst hsz2
    simp [ihexORec, ihexStNext, applyORec, hvd, hsh, Except.map]
  · -- record 03
    subst hty3
    subst hsz4
    have hdl : dat.length = 4 := hsz.symm
    simp [ihexORec, ihexStNext, applyORec, recStep, hvd, hsh, hdl, Except.map]
  · -- record 04
    subst hty4
    subst hsz2
    simp [ihexORec, ihexStNext, applyORec, hvd, hsh, Except.map]

/-- The records the line-oriented chunker yields for a list of
well-formed lines. -/
def ihexRecsOf (st : Nat) : List IHRec → List Rec
  | [] => []
  | r :: rest => (ihexORec st r).toList ++ ihexRecsOf (ihexStNext st r) rest

theorem ihexChunks_encode (g : Int) :
    ∀ (rs : List IHRec), (∀ x ∈ rs, x.wf) → ∀ st,
      ihexChunks ⟨0, 0, 0xffffffff, g, true⟩ st (rs.map ihEncodeLine) =
        .ok (ihexRecsOf st rs) := by
  intro rs
  induction rs with
  | nil => intro _ st; rfl
  | cons r rest ih =>
    intro hwf st
    simp only [List.map_cons, ihexChunks,
      ihexChunkLine_encode g st r (hwf r (List.mem_cons_self _ _))]
    rw [ih (fun x hx => hwf x (List.mem_cons_of_mem _ hx)) (ihexStNext st r)]
    rfl

theorem runRecs_eq_fastFold (g : Int) :
    ∀ (rs : List IHRec), (∀ x ∈ rs, x.wf) → ∀ (st : Nat) (p : PState),
      runRecs ⟨0, 0, 0xffffffff, g, true⟩ p (ihexRecsOf st rs) =
        (List.foldlM (fastLineStep ⟨0, 0, 0xffffffff, g, true⟩) (st, p)
          (rs.map ihEncodeLine)).map Prod.snd := by
  intro rs
  induction rs with
  | nil => intro _ st p; rfl
  | cons r rest ih =>
    intro hwf st p
    have hw := hwf r (List.mem_cons_self _ _)
    have hwr := fun x hx => hwf x (List.mem_cons_of_mem _ hx)
    rw [List.map_cons, List.foldlM_cons, fastLineStep_encode g st p r hw]
    rw [show ihexRecsOf st (r :: rest) =
      (ihexORec st r).toList ++ ihexRecsOf (ihexStNext st r) rest from rfl]
    cases ho : ihexORec st r with
    | none =>
      simp only [applyORec, Option.toList, List.nil_append]
      exact ih hwr (ihexStNext st r) p
    | some rc =>
      simp only [applyORec]
      show runRecs _ p (rc :: ihexRecsOf (ihexStNext st r) rest) = _
      simp only [runRecs, List.foldlM_cons]
      cases hstep : recStep ⟨0, 0, 0xffffffff, g, true⟩ p rc with
      | error e => rfl
      | ok p' => exact ih hwr (ihexStNext st r) p'

/-- C3 (amended): on every well-formed Intel HEX input whose record
types are among 00/01/02/03/04 (with EOF records carrying address 0),
parsed with default options (offset 0, full 32-bit address range,
checksum verification on) and any segment gap, the line-oriented
`IHexParser.parse` and the regex-based `IHexFastParser.parse` return
exactly the same outcome: the same segment list, the same execution
address, and identical errors (or none).  Type-05 records are excluded:
the line parser rejects them while the fast parser skips them. -/
theorem C3_line_fast_equiv (rs : List IHRec) (g : Int)
    (hwf : ∀ x ∈ rs, x.wf) :
    IHexParse ⟨0, 0, 0xffffffff, g, true⟩ (rs.map ihEncodeLine) =
      IHexFastParse ⟨0, 0, 0xffffffff, g, true⟩ (rs.map ihEncodeLine) := by
  unfold IHexParse IHexFastParse
  rw [ihexChunks_encode g rs hwf 0]
  show (runRecs ⟨0, 0, 0xffffffff, g, true⟩ pstate0 (ihexRecsOf 0 rs)).map
      storeSegment = _
  rw [runRecs_eq_fastFold g rs hwf 0 pstate0]
  cases hf : List.foldlM (fastLineStep ⟨0, 0, 0xffffffff, g, true⟩)
      (0, pstate0) (rs.map ihEncodeLine) with
  | error e => rfl
  | ok sp => rfl

/-- C3 (witness): the equivalence applied to a concrete two-record
well-formed input (one DATA record at 0x0010, one EOF). -/
theorem C3_line_fast_equiv_w :
    IHexParse ⟨0, 0, 0xffffffff, 16, true⟩
        ([⟨2, 0x10, 0, [0xAA, 0xBB], 0x89⟩, ⟨0, 0, 1, [], 0xFF⟩].map ihEncodeLine) =
      IHexFastParse ⟨0, 0, 0xffffffff, 16, true⟩
        ([⟨2, 0x10, 0, [0xAA, 0xBB], 0x89⟩, ⟨0, 0, 1, [], 0xFF⟩].map ihEncodeLine) :=
  C3_line_fast_equiv [⟨2, 0x10, 0, [0xAA, 0xBB], 0x89⟩, ⟨0, 0, 1, [], 0xFF⟩] 16
    (by decide)
